import Mathlib

/-
Verification of the in-memory node/path cache layer (`nodeCacheStandard`
and friends, libkbfs).  The Go source mutates shared node cores through
pointers under a single lock; here every operation is a pure function on an
explicit cache state.  Node cores live in a small heap (`cores`, keyed by a
numeric id standing for the Go pointer), the identity index (`nodes`) maps
block references to entries holding a core id and a reference count, and
node handles are values that either wrap a core id (Go `*nodeStandard`) or
are foreign to this cache (a `Node` of another implementation, for which
the Go type assertion fails).
-/

set_option autoImplicit false
set_option linter.dupNamespace false

namespace NodeCache

/-- Modelled from the spec: the content pointer ("block pointer") of the
storage layer (its Go definition is not part of source under
consideration).  `id` and `refNonce` are the components from which the
stable identity key is derived; `dataVer` stands for the remaining, mutable
location data.  A pointer is well-formed iff its id is nonzero. -/
structure BlockPointer where
  id : Nat
  dataVer : Nat
  refNonce : Nat
deriving DecidableEq

/-- Modelled from the spec: the stable identity key ("block reference")
derived from a content pointer when a node is first created.  The Go
struct `blockRef` holds the id and the reference nonce. -/
structure blockRef where
  id : Nat
  refNonce : Nat
deriving DecidableEq

/-- Derive the identity key of a content pointer (Go `BlockPointer.ref`). -/
def BlockPointer.ref (p : BlockPointer) : blockRef :=
  ⟨p.id, p.refNonce⟩

/-- Modelled from the spec: the storage layer's well-formedness predicate
on content pointers ("is this content pointer well-formed"). -/
def BlockPointer.IsValid (p : BlockPointer) : Bool :=
  p.id != 0

/-- Modelled from the spec: well-formedness of an identity key. -/
def blockRef.IsValid (r : blockRef) : Bool :=
  r.id != 0

/-- Modelled from the spec: the folder-branch tag identifying which
versioned tree this cache instance serves; opaque data with a zero
value. -/
structure FolderBranch where
  tlf : Nat
  branch : Nat
deriving DecidableEq

/-- Modelled from the spec: one (content pointer, name) component of a
path (Go `pathNode`). -/
structure pathNode where
  ptr : BlockPointer
  name : String
deriving DecidableEq

/-- Modelled from the spec: an ordered sequence of path nodes from root to
target, tagged with the folder-branch (Go `path`). -/
structure path where
  folderBranch : FolderBranch
  path : List pathNode
deriving DecidableEq

/-- The zero value of `path` (Go `path{}`). -/
def emptyPath : path :=
  ⟨⟨0, 0⟩, []⟩

/-- Modelled from the spec: the shared mutable record for one filesystem
object (Go `nodeCore`): current (pointer, name), parent link (the heap id
of the parent's core, none when root or detached), and the frozen cached
path populated by unlink. -/
structure nodeCore where
  pathNode : pathNode
  parent : Option Nat
  cachedPath : path
deriving DecidableEq

/-- A cache entry: the heap id of the owned node core plus its reference
count (Go `nodeCacheEntry`). -/
structure nodeCacheEntry where
  core : Nat
  refCount : Int
deriving DecidableEq

/-- Modelled from the spec: an externally held node handle.  `standard c`
is a Go `*nodeStandard` whose core is the heap cell `c`; `foreign` is any
`Node` value not belonging to this cache's handle type (the Go type
assertion `node.(*nodeStandard)` fails on it). -/
inductive Node where
  | standard (core : Nat)
  | foreign
deriving DecidableEq

/-- Association-list lookup (the Go map read `m[k]`). -/
def mapFind {κ β : Type} [DecidableEq κ] : List (κ × β) → κ → Option β
  | [], _ => none
  | (k, v) :: rest, key => if key = k then some v else mapFind rest key

/-- Association-list deletion (the Go `delete(m, k)`). -/
def mapErase {κ β : Type} [DecidableEq κ] : List (κ × β) → κ → List (κ × β)
  | [], _ => []
  | (k, v) :: rest, key => if k = key then mapErase rest key else (k, v) :: mapErase rest key

/-- Association-list insertion/overwrite (the Go map write `m[k] = v`). -/
def mapInsert {κ β : Type} [DecidableEq κ] (m : List (κ × β)) (k : κ) (v : β) : List (κ × β) :=
  (k, v) :: mapErase m k

/-- In-place update of the value at key `k`, if present (a Go mutation
through a pointer stored in the map). -/
def mapModify {κ β : Type} [DecidableEq κ] : List (κ × β) → κ → (β → β) → List (κ × β)
  | [], _, _ => []
  | (k, v) :: rest, key, f =>
    if k = key then (k, f v) :: mapModify rest key f
    else (k, v) :: mapModify rest key f

/-- The cache state (Go `nodeCacheStandard`): the folder-branch tag, the
identity index, and the heap of node cores with its allocation counter. -/
structure nodeCacheStandard where
  folderBranch : FolderBranch
  nodes : List (blockRef × nodeCacheEntry)
  cores : List (Nat × nodeCore)
  nextCore : Nat
deriving DecidableEq

/-- Go `newNodeCacheStandard`: fresh cache with an empty index. -/
def newNodeCacheStandard (fb : FolderBranch) : nodeCacheStandard :=
  ⟨fb, [], [], 0⟩

/-- Read a node core from the heap (dereferencing a Go core pointer). -/
def getCore (ncs : nodeCacheStandard) (c : Nat) : Option nodeCore :=
  mapFind ncs.cores c

/-- Mutate the node core at heap id `c` in place. -/
def updateCore (ncs : nodeCacheStandard) (c : Nat) (f : nodeCore → nodeCore) : nodeCacheStandard :=
  { ncs with cores := mapModify ncs.cores c f }

/-- The parent link of the core at heap id `c` (Go `entry.core.parent`). -/
def coreParent (ncs : nodeCacheStandard) (c : Nat) : Option Nat :=
  match getCore ncs c with
  | some co => co.parent
  | none => none

/-- The cached path of the core at heap id `c` (Go
`entry.core.cachedPath`). -/
def coreCachedPath (ncs : nodeCacheStandard) (c : Nat) : path :=
  match getCore ncs c with
  | some co => co.cachedPath
  | none => emptyPath

/-- The recoverable and fatal outcomes of the cache operations:
`emptyName` and `parentNotFound` are the ordinary errors
(`EmptyNameError`, `ParentNodeNotFoundError`); `invalidRef` stands for the
Go panic on a malformed pointer or reference. -/
inductive cacheError where
  | emptyName (r : blockRef)
  | parentNotFound (r : blockRef)
  | invalidRef (r : blockRef)
deriving DecidableEq

/-- Go `forgetLocked`: decrement the reference count of the entry matching
this core, evicting the entry when the count reaches zero; a stale core
(no entry under its reference, or an entry since replaced by another core)
is a silent no-op. -/
def forgetLocked (ncs : nodeCacheStandard) (c : Nat) : nodeCacheStandard :=
  match getCore ncs c with
  | none => ncs
  | some core =>
    match mapFind ncs.nodes core.pathNode.ptr.ref with
    | none => ncs
    | some entry =>
      if entry.core ≠ c then ncs
      else if entry.refCount - 1 ≤ 0 then
        { ncs with nodes := mapErase ncs.nodes core.pathNode.ptr.ref }
      else
        { ncs with nodes := mapInsert ncs.nodes core.pathNode.ptr.ref ⟨c, entry.refCount - 1⟩ }

/-- Go `forget`: the release hook invoked by the node finalizer. -/
def forget (ncs : nodeCacheStandard) (c : Nat) : nodeCacheStandard :=
  forgetLocked ncs c

/-- Go `newChildForParentLocked`: validate a supplied parent handle — it
must be of this cache's handle type and must currently resolve, through
its core's reference, to a live index entry holding exactly that core. -/
def newChildForParentLocked (ncs : nodeCacheStandard) (parent : Node) : Except cacheError Nat :=
  match parent with
  | .foreign => .error (.parentNotFound ⟨0, 0⟩)
  | .standard c =>
    match getCore ncs c with
    | none => .error (.parentNotFound ⟨0, 0⟩)
    | some core =>
      match mapFind ncs.nodes core.pathNode.ptr.ref with
      | none => .error (.parentNotFound core.pathNode.ptr.ref)
      | some entry =>
        if entry.core = c then .ok c
        else .error (.parentNotFound core.pathNode.ptr.ref)

/-- Go `makeNodeStandardForEntry`: increment the entry's reference count
and hand out a fresh handle to its core. -/
def makeNodeStandardForEntry (ncs : nodeCacheStandard) (ref : blockRef) (entry : nodeCacheEntry) :
    Node × nodeCacheStandard :=
  (.standard entry.core,
   { ncs with nodes := mapInsert ncs.nodes ref ⟨entry.core, entry.refCount + 1⟩ })

/-- The shared tail of `GetOrCreate` (Go lines building the new entry):
allocate a fresh core, insert the entry under the derived reference, and
hand out a first handle (reference count 1). -/
def finishCreate (ncs : nodeCacheStandard) (ptr : BlockPointer) (name : String)
    (parentCore : Option Nat) : Except cacheError Node × nodeCacheStandard :=
  let cid := ncs.nextCore
  let ncs1 := { ncs with
    cores := mapInsert ncs.cores cid ⟨⟨ptr, name⟩, parentCore, emptyPath⟩,
    nextCore := cid + 1 }
  let r := makeNodeStandardForEntry
    { ncs1 with nodes := mapInsert ncs1.nodes ptr.ref ⟨cid, 0⟩ } ptr.ref ⟨cid, 0⟩
  (.ok r.1, r.2)

/-- The creation path of `GetOrCreate`: validate the parent handle when
one is supplied, then build the new entry. -/
def createNewEntry (ncs : nodeCacheStandard) (ptr : BlockPointer) (name : String)
    (parent : Option Node) : Except cacheError Node × nodeCacheStandard :=
  match parent with
  | none => finishCreate ncs ptr name none
  | some p =>
    match newChildForParentLocked ncs p with
    | .error e => (.error e, ncs)
    | .ok pc => finishCreate ncs ptr name (some pc)

/-- Go `GetOrCreate`: create or fetch the node for an identity.  An
existing entry is reused (count incremented) unless a parent is supplied
while the entry's core is detached, in which case the stale entry is
evicted and a fresh one created. -/
def GetOrCreate (ncs : nodeCacheStandard) (ptr : BlockPointer) (name : String)
    (parent : Option Node) : Except cacheError Node × nodeCacheStandard :=
  if ptr.IsValid = false then (.error (.invalidRef ptr.ref), ncs)
  else if name = "" then (.error (.emptyName ptr.ref), ncs)
  else
    match mapFind ncs.nodes ptr.ref with
    | some entry =>
      if parent.isSome && (coreParent ncs entry.core).isNone then
        createNewEntry { ncs with nodes := mapErase ncs.nodes ptr.ref } ptr name parent
      else
        let r := makeNodeStandardForEntry ncs ptr.ref entry
        (.ok r.1, r.2)
    | none => createNewEntry ncs ptr name parent

/-- Go `Get`: look an identity up; the zero reference and a miss both
yield no node, a hit increments the count and yields a handle. -/
def Get (ncs : nodeCacheStandard) (ref : blockRef) : Except cacheError (Option Node) × nodeCacheStandard :=
  if ref = ⟨0, 0⟩ then (.ok none, ncs)
  else if ref.IsValid = false then (.error (.invalidRef ref), ncs)
  else
    match mapFind ncs.nodes ref with
    | none => (.ok none, ncs)
    | some entry =>
      let r := makeNodeStandardForEntry ncs ref entry
      (.ok (some r.1), r.2)

/-- Go `UpdatePointer`: rewrite the content pointer of the node currently
indexed under `oldRef` and rekey its entry under the new pointer's
reference; a miss, or a node with a non-empty cached path (unlinked), is a
silent no-op. -/
def UpdatePointer (ncs : nodeCacheStandard) (oldRef : blockRef) (newPtr : BlockPointer) :
    Except cacheError Unit × nodeCacheStandard :=
  if oldRef = ⟨0, 0⟩ ∧ newPtr = ⟨0, 0, 0⟩ then (.ok (), ncs)
  else if oldRef.IsValid = false then (.error (.invalidRef oldRef), ncs)
  else if newPtr.IsValid = false then (.error (.invalidRef newPtr.ref), ncs)
  else
    match mapFind ncs.nodes oldRef with
    | none => (.ok (), ncs)
    | some entry =>
      if 0 < (coreCachedPath ncs entry.core).path.length then (.ok (), ncs)
      else
        let ncs1 := updateCore ncs entry.core
          (fun co => { co with pathNode := { co.pathNode with ptr := newPtr } })
        (.ok (), { ncs1 with nodes := mapInsert (mapErase ncs1.nodes oldRef) newPtr.ref entry })

/-- Go `Move`: re-parent and rename the node indexed under `ref`; the new
parent is validated exactly as in `GetOrCreate`'s creation path. -/
def Move (ncs : nodeCacheStandard) (ref : blockRef) (newParent : Node) (newName : String) :
    Except cacheError Unit × nodeCacheStandard :=
  if ref = ⟨0, 0⟩ then (.ok (), ncs)
  else if ref.IsValid = false then (.error (.invalidRef ref), ncs)
  else if newName = "" then (.error (.emptyName ref), ncs)
  else
    match mapFind ncs.nodes ref with
    | none => (.ok (), ncs)
    | some entry =>
      match newChildForParentLocked ncs newParent with
      | .error e => (.error e, ncs)
      | .ok pc =>
        (.ok (), updateCore ncs entry.core
          (fun co => { co with parent := some pc, pathNode := { co.pathNode with name := newName } }))

/-- The in-place core mutation performed by `Unlink`: store the snapshot
as the cached path, clear the parent link, clear the name. -/
def unlinkCore (oldPath : path) (co : nodeCore) : nodeCore :=
  { co with cachedPath := oldPath, parent := none,
            pathNode := { co.pathNode with name := "" } }

/-- Go `Unlink`: mark the node indexed under `ref` deleted — store the
snapshot as its cached path, clear the parent link, clear the name. -/
def Unlink (ncs : nodeCacheStandard) (ref : blockRef) (oldPath : path) :
    Except cacheError Unit × nodeCacheStandard :=
  if ref = ⟨0, 0⟩ then (.ok (), ncs)
  else if ref.IsValid = false then (.error (.invalidRef ref), ncs)
  else
    match mapFind ncs.nodes ref with
    | none => (.ok (), ncs)
    | some entry =>
      (.ok (), updateCore ncs entry.core (unlinkCore oldPath))

/-- Outcome of the parent walk inside `PathFromNode`: either the first
visited core was detached with a cached path (Go's early `return
core.cachedPath`), or the loop finished with the accumulated, still
leaf-to-root list. -/
inductive walkResult where
  | early (p : path)
  | done (acc : List pathNode)
deriving DecidableEq

/-- The loop of Go `PathFromNode`, with explicit fuel standing for the Go
loop's unbounded iteration (the fuel passed by `PathFromNode` exceeds the
heap size, so it never runs out on acyclic parent chains). -/
def pathWalk (ncs : nodeCacheStandard) : Nat → Option Nat → List pathNode → walkResult
  | 0, _, acc => .done acc
  | _ + 1, none, acc => .done acc
  | fuel + 1, some c, acc =>
    match getCore ncs c with
    | none => .done acc
    | some core =>
      if core.parent = none ∧ 0 < core.cachedPath.path.length then
        if acc = [] then .early core.cachedPath
        else .done (acc ++ core.cachedPath.path.reverse)
      else pathWalk ncs fuel core.parent (acc ++ [core.pathNode])

/-- Go `PathFromNode`: reconstruct the full path for a handle by walking
parent links, splicing in the cached path of a detached core; a handle not
of this cache's handle type yields the zero-value path. -/
def PathFromNode (ncs : nodeCacheStandard) (node : Node) : path :=
  match node with
  | .foreign => ⟨⟨0, 0⟩, []⟩
  | .standard c =>
    match pathWalk ncs (ncs.cores.length + 1) (some c) [] with
    | .early p => p
    | .done acc => ⟨ncs.folderBranch, acc.reverse⟩

/-- The four tree-mutating cache operations, reified so that sequences of
intervening calls can be quantified over. -/
inductive cacheOp where
  | getOrCreate (ptr : BlockPointer) (name : String) (parent : Option Node)
  | get (ref : blockRef)
  | updatePointer (oldRef : blockRef) (newPtr : BlockPointer)
  | move (ref : blockRef) (newParent : Node) (newName : String)
  | unlink (ref : blockRef) (oldPath : path)

/-- Run one reified operation for its state effect. -/
def applyOp (ncs : nodeCacheStandard) : cacheOp → nodeCacheStandard
  | .getOrCreate ptr name parent => (GetOrCreate ncs ptr name parent).2
  | .get ref => (Get ncs ref).2
  | .updatePointer oldRef newPtr => (UpdatePointer ncs oldRef newPtr).2
  | .move ref newParent newName => (Move ncs ref newParent newName).2
  | .unlink ref oldPath => (Unlink ncs ref oldPath).2

/-- Run a sequence of reified operations. -/
def applyOps (ncs : nodeCacheStandard) (ops : List cacheOp) : nodeCacheStandard :=
  ops.foldl applyOp ncs

/-- Whether one operation, run on this state, writes the node core at heap
id `c`: only `UpdatePointer`, `Move` and `Unlink` mutate existing cores,
and each mutates exactly the core of the entry its reference resolves
to. -/
def writesCore (ncs : nodeCacheStandard) : cacheOp → Nat → Bool
  | .updatePointer oldRef _, c =>
    match mapFind ncs.nodes oldRef with
    | some e => e.core == c
    | none => false
  | .move ref _ _, c =>
    match mapFind ncs.nodes ref with
    | some e => e.core == c
    | none => false
  | .unlink ref _, c =>
    match mapFind ncs.nodes ref with
    | some e => e.core == c
    | none => false
  | _, _ => false

/-- A sequence of operations, run from this state, never writes the node
core at heap id `c` (each step judged in the state it actually runs on):
these are the operations on other nodes. -/
def avoidsCore : nodeCacheStandard → List cacheOp → Nat → Prop
  | _, [], _ => True
  | ncs, op :: rest, c => writesCore ncs op c = false ∧ avoidsCore (applyOp ncs op) rest c

/-- Heap well-formedness: every allocated core id is below the allocation
counter, so fresh allocations never collide with live cores. -/
def heapWF (ncs : nodeCacheStandard) : Prop :=
  ∀ q ∈ ncs.cores, q.1 < ncs.nextCore

/-- One acquisition step on an identity already in the index: a
`GetOrCreate` with no parent (`true`) or a `Get` (`false`). -/
def acquireKind (ncs : nodeCacheStandard) (ptr : BlockPointer) (name : String) (k : Bool) :
    nodeCacheStandard :=
  if k then (GetOrCreate ncs ptr name none).2 else (Get ncs ptr.ref).2

/-- A sequence of acquisition steps on the same identity. -/
def acquireAll (ncs : nodeCacheStandard) (ptr : BlockPointer) (name : String) (ks : List Bool) :
    nodeCacheStandard :=
  ks.foldl (fun s k => acquireKind s ptr name k) ncs

/-- `j` successive releases (finalizer `forget` calls) of handles on the
core at heap id `c`. -/
def releaseRep (ncs : nodeCacheStandard) (c : Nat) : Nat → nodeCacheStandard
  | 0 => ncs
  | j + 1 => releaseRep (forget ncs c) c j

deriving instance DecidableEq for Except

/-- Heap well-formedness is a bounded quantification over the core list,
hence decidable on concrete states. -/
instance decidableHeapWF (ncs : nodeCacheStandard) : Decidable (heapWF ncs) :=
  inferInstanceAs (Decidable (∀ q ∈ ncs.cores, q.1 < ncs.nextCore))

/-- A concrete cache holding one root node `R` (name "r", pointer id 1,
core id 0), built through the operations themselves. -/
def cacheR : nodeCacheStandard :=
  (GetOrCreate (newNodeCacheStandard ⟨1, 1⟩) ⟨1, 0, 0⟩ "r" none).2

/-- `cacheR` extended with a child `A` (name "a", pointer id 2, core id 1)
of the root. -/
def cacheRA : nodeCacheStandard :=
  (GetOrCreate cacheR ⟨2, 0, 0⟩ "a" (some (.standard 0))).2

/-- `cacheRA` extended with a grandchild `B` (name "b", pointer id 3,
core id 2) under `A`. -/
def cacheRAB : nodeCacheStandard :=
  (GetOrCreate cacheRA ⟨3, 0, 0⟩ "b" (some (.standard 1))).2

/-- The root-to-`A` snapshot path used when unlinking `A`. -/
def snapA : path :=
  ⟨⟨1, 1⟩, [⟨⟨1, 0, 0⟩, "r"⟩, ⟨⟨2, 0, 0⟩, "a"⟩]⟩

/-- `cacheRAB` after `A` has been unlinked with snapshot `snapA`:
`A`'s core is detached with a non-empty cached path while its entry is
still indexed (and `B` is still attached below it). -/
def cacheRABu : nodeCacheStandard :=
  (Unlink cacheRAB ⟨2, 0⟩ snapA).2

/-- `cacheR` after the root has been unlinked with an empty snapshot
path: a detached core whose cached path is empty. -/
def cacheRuEmpty : nodeCacheStandard :=
  (Unlink cacheR ⟨1, 0⟩ ⟨⟨9, 9⟩, []⟩).2

section MapLemmas

variable {κ β : Type} [DecidableEq κ]

theorem mapFind_mapErase_ne (m : List (κ × β)) (k key : κ) (h : key ≠ k) :
    mapFind (mapErase m k) key = mapFind m key := by
  induction m with
  | nil => rfl
  | cons hd tl ih =>
    obtain ⟨k1, v1⟩ := hd
    simp only [mapErase]
    split
    · rename_i h1
      rw [ih, mapFind, if_neg (h1 ▸ h)]
    · simp only [mapFind]
      split
      · rfl
      · exact ih

theorem mapFind_mapErase_self (m : List (κ × β)) (k : κ) :
    mapFind (mapErase m k) k = none := by
  induction m with
  | nil => rfl
  | cons hd tl ih =>
    obtain ⟨k1, v1⟩ := hd
    simp only [mapErase]
    split
    · exact ih
    · rename_i h1
      rw [mapFind, if_neg (fun h => h1 h.symm)]
      exact ih

theorem mapFind_mapInsert_self (m : List (κ × β)) (k : κ) (v : β) :
    mapFind (mapInsert m k v) k = some v := by
  simp [mapInsert, mapFind]

theorem mapFind_mapInsert_ne (m : List (κ × β)) (k key : κ) (v : β) (h : key ≠ k) :
    mapFind (mapInsert m k v) key = mapFind m key := by
  rw [mapInsert, mapFind, if_neg h, mapFind_mapErase_ne m k key h]

theorem mapFind_mem (m : List (κ × β)) (k : κ) (v : β) (h : mapFind m k = some v) :
    (k, v) ∈ m := by
  induction m with
  | nil => simp [mapFind] at h
  | cons hd tl ih =>
    obtain ⟨k1, v1⟩ := hd
    rw [mapFind] at h
    by_cases h1 : k = k1
    · rw [if_pos h1] at h
      obtain rfl := Option.some.inj h
      exact h1 ▸ List.mem_cons_self _ _
    · rw [if_neg h1] at h
      exact List.mem_cons_of_mem _ (ih h)

theorem mem_mapErase (m : List (κ × β)) (k : κ) (q : κ × β) (h : q ∈ mapErase m k) :
    q ∈ m := by
  induction m with
  | nil => simp [mapErase] at h
  | cons hd tl ih =>
    obtain ⟨k1, v1⟩ := hd
    rw [mapErase] at h
    split at h
    · exact List.mem_cons_of_mem _ (ih h)
    · rcases List.mem_cons.mp h with h | h
      · exact h ▸ List.mem_cons_self _ _
      · exact List.mem_cons_of_mem _ (ih h)

theorem mapFind_mapModify_self (m : List (κ × β)) (k : κ) (f : β → β) :
    mapFind (mapModify m k f) k = (mapFind m k).map f := by
  induction m with
  | nil => rfl
  | cons hd tl ih =>
    obtain ⟨k1, v1⟩ := hd
    rw [mapModify]
    split
    · rename_i h1
      subst h1
      rw [mapFind, if_pos rfl, mapFind, if_pos rfl]
      rfl
    · rename_i h1
      rw [mapFind, if_neg (fun h => h1 h.symm), mapFind, if_neg (fun h => h1 h.symm), ih]

theorem mapFind_mapModify_ne (m : List (κ × β)) (k key : κ) (f : β → β) (h : key ≠ k) :
    mapFind (mapModify m k f) key = mapFind m key := by
  induction m with
  | nil => rfl
  | cons hd tl ih =>
    obtain ⟨k1, v1⟩ := hd
    rw [mapModify]
    split
    · rename_i h1
      subst h1
      rw [mapFind, if_neg h, mapFind, if_neg h, ih]
    · rw [mapFind, mapFind]
      split
      · rfl
      · exact ih

theorem mem_mapModify (m : List (κ × β)) (k : κ) (f : β → β) (q : κ × β)
    (h : q ∈ mapModify m k f) : ∃ p ∈ m, q.1 = p.1 := by
  induction m with
  | nil => simp [mapModify] at h
  | cons hd tl ih =>
    obtain ⟨k1, v1⟩ := hd
    rw [mapModify] at h
    split at h
    · rcases List.mem_cons.mp h with h | h
      · exact ⟨(k1, v1), List.mem_cons_self _ _, by rw [h]⟩
      · obtain ⟨p, hp, he⟩ := ih h
        exact ⟨p, List.mem_cons_of_mem _ hp, he⟩
    · rcases List.mem_cons.mp h with h | h
      · exact ⟨(k1, v1), List.mem_cons_self _ _, by rw [h]⟩
      · obtain ⟨p, hp, he⟩ := ih h
        exact ⟨p, List.mem_cons_of_mem _ hp, he⟩

end MapLemmas

theorem blockRef.ne_zero_of_valid (r : blockRef) (h : r.IsValid = true) : r ≠ ⟨0, 0⟩ := by
  intro he
  subst he
  simp [blockRef.IsValid] at h

theorem BlockPointer.ref_valid (p : BlockPointer) (h : p.IsValid = true) :
    p.ref.IsValid = true := h

theorem BlockPointer.ref_ne_zero (p : BlockPointer) (h : p.IsValid = true) :
    p.ref ≠ ⟨0, 0⟩ :=
  blockRef.ne_zero_of_valid p.ref h

theorem getCore_lt (ncs : nodeCacheStandard) (c : Nat) (co : nodeCore)
    (hwf : heapWF ncs) (h : getCore ncs c = some co) : c < ncs.nextCore :=
  hwf (c, co) (mapFind_mem _ _ _ h)

theorem getCore_updateCore_self (ncs : nodeCacheStandard) (c : Nat) (f : nodeCore → nodeCore)
    (co : nodeCore) (h : getCore ncs c = some co) :
    getCore (updateCore ncs c f) c = some (f co) := by
  rw [updateCore, getCore, mapFind_mapModify_self]
  rw [getCore] at h
  rw [h]
  rfl

theorem getCore_updateCore_ne (ncs : nodeCacheStandard) (c c' : Nat) (f : nodeCore → nodeCore)
    (h : c' ≠ c) : getCore (updateCore ncs c f) c' = getCore ncs c' := by
  rw [updateCore, getCore, mapFind_mapModify_ne _ _ _ _ h]
  rfl

theorem heapWF_updateCore (ncs : nodeCacheStandard) (c : Nat) (f : nodeCore → nodeCore)
    (hwf : heapWF ncs) : heapWF (updateCore ncs c f) := by
  intro q hq
  obtain ⟨p, hp, he⟩ := mem_mapModify _ _ _ _ hq
  have := hwf p hp
  simp only [updateCore] at *
  omega

theorem GetOrCreate_reuse (ncs : nodeCacheStandard) (ptr : BlockPointer) (name : String)
    (parent : Option Node) (en : nodeCacheEntry)
    (hv : ptr.IsValid = true) (hn : name ≠ "")
    (hfind : mapFind ncs.nodes ptr.ref = some en)
    (hcond : (parent.isSome && (coreParent ncs en.core).isNone) = false) :
    GetOrCreate ncs ptr name parent =
      (.ok (.standard en.core),
       { ncs with nodes := mapInsert ncs.nodes ptr.ref ⟨en.core, en.refCount + 1⟩ }) := by
  rw [GetOrCreate, hv, if_neg (by simp), if_neg hn, hfind]
  simp only [hcond, Bool.false_eq_true, if_false]
  rfl

theorem GetOrCreate_create_err (ncs : nodeCacheStandard) (ptr : BlockPointer) (name : String)
    (p : Node) (e : cacheError)
    (hv : ptr.IsValid = true) (hn : name ≠ "")
    (hfind : mapFind ncs.nodes ptr.ref = none)
    (hres : newChildForParentLocked ncs p = .error e) :
    GetOrCreate ncs ptr name (some p) = (.error e, ncs) := by
  rw [GetOrCreate, hv, if_neg (by simp), if_neg hn, hfind]
  simp only [createNewEntry, hres]

theorem GetOrCreate_create_ok (ncs : nodeCacheStandard) (ptr : BlockPointer) (name : String)
    (p : Node) (pc : Nat)
    (hv : ptr.IsValid = true) (hn : name ≠ "")
    (hfind : mapFind ncs.nodes ptr.ref = none)
    (hres : newChildForParentLocked ncs p = .ok pc) :
    GetOrCreate ncs ptr name (some p) = finishCreate ncs ptr name (some pc) := by
  rw [GetOrCreate, hv, if_neg (by simp), if_neg hn, hfind]
  simp only [createNewEntry, hres]

theorem GetOrCreate_create_root (ncs : nodeCacheStandard) (ptr : BlockPointer) (name : String)
    (hv : ptr.IsValid = true) (hn : name ≠ "")
    (hfind : mapFind ncs.nodes ptr.ref = none) :
    GetOrCreate ncs ptr name none = finishCreate ncs ptr name none := by
  rw [GetOrCreate, hv, if_neg (by simp), if_neg hn, hfind]
  rfl

theorem GetOrCreate_resurrect (ncs : nodeCacheStandard) (ptr : BlockPointer) (name : String)
    (p : Node) (en : nodeCacheEntry)
    (hv : ptr.IsValid = true) (hn : name ≠ "")
    (hfind : mapFind ncs.nodes ptr.ref = some en)
    (hdet : coreParent ncs en.core = none) :
    GetOrCreate ncs ptr name (some p) =
      createNewEntry { ncs with nodes := mapErase ncs.nodes ptr.ref } ptr name (some p) := by
  rw [GetOrCreate, hv, if_neg (by simp), if_neg hn, hfind]
  simp only [hdet, Option.isSome_some, Option.isNone_none, Bool.and_true, if_true]

theorem finishCreate_eq (ncs : nodeCacheStandard) (ptr : BlockPointer) (name : String)
    (pc : Option Nat) :
    finishCreate ncs ptr name pc =
      (.ok (.standard ncs.nextCore),
       { ncs with
         cores := mapInsert ncs.cores ncs.nextCore ⟨⟨ptr, name⟩, pc, emptyPath⟩,
         nextCore := ncs.nextCore + 1,
         nodes := mapInsert (mapInsert ncs.nodes ptr.ref ⟨ncs.nextCore, 0⟩) ptr.ref
           ⟨ncs.nextCore, 1⟩ }) := by
  rfl

theorem Get_miss (ncs : nodeCacheStandard) (ref : blockRef)
    (hz : ref ≠ ⟨0, 0⟩) (hv : ref.IsValid = true)
    (hfind : mapFind ncs.nodes ref = none) :
    Get ncs ref = (.ok none, ncs) := by
  rw [Get, if_neg hz, hv, if_neg (by simp), hfind]

theorem Get_hit (ncs : nodeCacheStandard) (ref : blockRef) (en : nodeCacheEntry)
    (hz : ref ≠ ⟨0, 0⟩) (hv : ref.IsValid = true)
    (hfind : mapFind ncs.nodes ref = some en) :
    Get ncs ref =
      (.ok (some (.standard en.core)),
       { ncs with nodes := mapInsert ncs.nodes ref ⟨en.core, en.refCount + 1⟩ }) := by
  rw [Get, if_neg hz, hv, if_neg (by simp), hfind]
  rfl

theorem UpdatePointer_miss (ncs : nodeCacheStandard) (oldRef : blockRef) (newPtr : BlockPointer)
    (hz : oldRef ≠ ⟨0, 0⟩) (hv : oldRef.IsValid = true) (hvp : newPtr.IsValid = true)
    (hfind : mapFind ncs.nodes oldRef = none) :
    UpdatePointer ncs oldRef newPtr = (.ok (), ncs) := by
  rw [UpdatePointer, if_neg (fun h => hz h.1), hv, if_neg (by simp), hvp, if_neg (by simp), hfind]

theorem UpdatePointer_unlinked (ncs : nodeCacheStandard) (oldRef : blockRef)
    (newPtr : BlockPointer) (en : nodeCacheEntry)
    (hz : oldRef ≠ ⟨0, 0⟩) (hv : oldRef.IsValid = true) (hvp : newPtr.IsValid = true)
    (hfind : mapFind ncs.nodes oldRef = some en)
    (hcp : 0 < (coreCachedPath ncs en.core).path.length) :
    UpdatePointer ncs oldRef newPtr = (.ok (), ncs) := by
  rw [UpdatePointer, if_neg (fun h => hz h.1), hv, if_neg (by simp), hvp, if_neg (by simp), hfind]
  simp only [if_pos hcp]

theorem UpdatePointer_rekey (ncs : nodeCacheStandard) (oldRef : blockRef)
    (newPtr : BlockPointer) (en : nodeCacheEntry)
    (hz : oldRef ≠ ⟨0, 0⟩) (hv : oldRef.IsValid = true) (hvp : newPtr.IsValid = true)
    (hfind : mapFind ncs.nodes oldRef = some en)
    (hcp : ¬ 0 < (coreCachedPath ncs en.core).path.length) :
    UpdatePointer ncs oldRef newPtr =
      (.ok (),
       let ncs1 := updateCore ncs en.core
         (fun co => { co with pathNode := { co.pathNode with ptr := newPtr } })
       { ncs1 with nodes := mapInsert (mapErase ncs1.nodes oldRef) newPtr.ref en }) := by
  rw [UpdatePointer, if_neg (fun h => hz h.1), hv, if_neg (by simp), hvp, if_neg (by simp), hfind]
  simp only [if_neg hcp]

theorem Move_missing (ncs : nodeCacheStandard) (ref : blockRef) (newParent : Node)
    (newName : String)
    (hz : ref ≠ ⟨0, 0⟩) (hv : ref.IsValid = true) (hn : newName ≠ "")
    (hfind : mapFind ncs.nodes ref = none) :
    Move ncs ref newParent newName = (.ok (), ncs) := by
  rw [Move, if_neg hz, hv, if_neg (by simp), if_neg hn, hfind]

theorem Move_emptyName (ncs : nodeCacheStandard) (ref : blockRef) (newParent : Node)
    (hz : ref ≠ ⟨0, 0⟩) (hv : ref.IsValid = true) :
    Move ncs ref newParent "" = (.error (.emptyName ref), ncs) := by
  rw [Move, if_neg hz, hv, if_neg (by simp), if_pos rfl]

theorem Move_parent_err (ncs : nodeCacheStandard) (ref : blockRef) (newParent : Node)
    (newName : String) (en : nodeCacheEntry) (e : cacheError)
    (hz : ref ≠ ⟨0, 0⟩) (hv : ref.IsValid = true) (hn : newName ≠ "")
    (hfind : mapFind ncs.nodes ref = some en)
    (hres : newChildForParentLocked ncs newParent = .error e) :
    Move ncs ref newParent newName = (.error e, ncs) := by
  rw [Move, if_neg hz, hv, if_neg (by simp), if_neg hn, hfind]
  simp only [hres]

theorem Move_ok (ncs : nodeCacheStandard) (ref : blockRef) (newParent : Node)
    (newName : String) (en : nodeCacheEntry) (pc : Nat)
    (hz : ref ≠ ⟨0, 0⟩) (hv : ref.IsValid = true) (hn : newName ≠ "")
    (hfind : mapFind ncs.nodes ref = some en)
    (hres : newChildForParentLocked ncs newParent = .ok pc) :
    Move ncs ref newParent newName =
      (.ok (), updateCore ncs en.core
        (fun co => { co with parent := some pc,
                             pathNode := { co.pathNode with name := newName } })) := by
  rw [Move, if_neg hz, hv, if_neg (by simp), if_neg hn, hfind]
  simp only [hres]

theorem Unlink_missing (ncs : nodeCacheStandard) (ref : blockRef) (oldPath : path)
    (hz : ref ≠ ⟨0, 0⟩) (hv : ref.IsValid = true)
    (hfind : mapFind ncs.nodes ref = none) :
    Unlink ncs ref oldPath = (.ok (), ncs) := by
  rw [Unlink, if_neg hz, hv, if_neg (by simp), hfind]

theorem Unlink_found (ncs : nodeCacheStandard) (ref : blockRef) (oldPath : path)
    (en : nodeCacheEntry)
    (hz : ref ≠ ⟨0, 0⟩) (hv : ref.IsValid = true)
    (hfind : mapFind ncs.nodes ref = some en) :
    Unlink ncs ref oldPath =
      (.ok (), updateCore ncs en.core (unlinkCore oldPath)) := by
  rw [Unlink, if_neg hz, hv, if_neg (by simp), hfind]

theorem forget_dec (ncs : nodeCacheStandard) (c : Nat) (co : nodeCore) (en : nodeCacheEntry)
    (hco : getCore ncs c = some co)
    (hfind : mapFind ncs.nodes co.pathNode.ptr.ref = some en)
    (hc : en.core = c) (hrc : ¬ en.refCount - 1 ≤ 0) :
    forget ncs c =
      { ncs with nodes := mapInsert ncs.nodes co.pathNode.ptr.ref ⟨c, en.refCount - 1⟩ } := by
  rw [forget, forgetLocked, hco]
  simp only [hfind, if_neg hrc]
  rw [if_neg (show ¬ en.core ≠ c from fun h => h hc)]

theorem forget_evict (ncs : nodeCacheStandard) (c : Nat) (co : nodeCore) (en : nodeCacheEntry)
    (hco : getCore ncs c = some co)
    (hfind : mapFind ncs.nodes co.pathNode.ptr.ref = some en)
    (hc : en.core = c) (hrc : en.refCount - 1 ≤ 0) :
    forget ncs c = { ncs with nodes := mapErase ncs.nodes co.pathNode.ptr.ref } := by
  rw [forget, forgetLocked, hco]
  simp only [hfind, if_pos hrc]
  rw [if_neg (show ¬ en.core ≠ c from fun h => h hc)]

theorem GetOrCreate_heap_shape (ncs : nodeCacheStandard) (ptr : BlockPointer) (name : String)
    (parent : Option Node) :
    ((GetOrCreate ncs ptr name parent).2.cores = ncs.cores ∧
     (GetOrCreate ncs ptr name parent).2.nextCore = ncs.nextCore) ∨
    (∃ pc, (GetOrCreate ncs ptr name parent).2.cores =
        mapInsert ncs.cores ncs.nextCore ⟨⟨ptr, name⟩, pc, emptyPath⟩ ∧
      (GetOrCreate ncs ptr name parent).2.nextCore = ncs.nextCore + 1) := by
  rw [GetOrCreate]
  split
  · exact .inl ⟨rfl, rfl⟩
  · split
    · exact .inl ⟨rfl, rfl⟩
    · split
      · split
        · rw [createNewEntry.eq_def]
          split
          · exact .inr ⟨none, rfl, rfl⟩
          · split
            · exact .inl ⟨rfl, rfl⟩
            · rename_i pc _
              exact .inr ⟨some pc, rfl, rfl⟩
        · exact .inl ⟨rfl, rfl⟩
      · rw [createNewEntry.eq_def]
        split
        · exact .inr ⟨none, rfl, rfl⟩
        · split
          · exact .inl ⟨rfl, rfl⟩
          · rename_i pc _
            exact .inr ⟨some pc, rfl, rfl⟩

theorem Get_heap_shape (ncs : nodeCacheStandard) (ref : blockRef) :
    (Get ncs ref).2.cores = ncs.cores ∧ (Get ncs ref).2.nextCore = ncs.nextCore := by
  rw [Get]
  split
  · exact ⟨rfl, rfl⟩
  · split
    · exact ⟨rfl, rfl⟩
    · split
      · exact ⟨rfl, rfl⟩
      · exact ⟨rfl, rfl⟩

theorem UpdatePointer_heap_shape (ncs : nodeCacheStandard) (oldRef : blockRef)
    (newPtr : BlockPointer) :
    ((UpdatePointer ncs oldRef newPtr).2.cores = ncs.cores ∧
     (UpdatePointer ncs oldRef newPtr).2.nextCore = ncs.nextCore) ∨
    (∃ en f, mapFind ncs.nodes oldRef = some en ∧
      (UpdatePointer ncs oldRef newPtr).2.cores = mapModify ncs.cores en.core f ∧
      (UpdatePointer ncs oldRef newPtr).2.nextCore = ncs.nextCore) := by
  rw [UpdatePointer]
  split
  · exact .inl ⟨rfl, rfl⟩
  · split
    · exact .inl ⟨rfl, rfl⟩
    · split
      · exact .inl ⟨rfl, rfl⟩
      · split
        · exact .inl ⟨rfl, rfl⟩
        · rename_i en heq
          split
          · exact .inl ⟨rfl, rfl⟩
          · exact .inr ⟨en, _, heq, rfl, rfl⟩

theorem Move_heap_shape (ncs : nodeCacheStandard) (ref : blockRef) (newParent : Node)
    (newName : String) :
    ((Move ncs ref newParent newName).2.cores = ncs.cores ∧
     (Move ncs ref newParent newName).2.nextCore = ncs.nextCore) ∨
    (∃ en f, mapFind ncs.nodes ref = some en ∧
      (Move ncs ref newParent newName).2.cores = mapModify ncs.cores en.core f ∧
      (Move ncs ref newParent newName).2.nextCore = ncs.nextCore) := by
  rw [Move]
  split
  · exact .inl ⟨rfl, rfl⟩
  · split
    · exact .inl ⟨rfl, rfl⟩
    · split
      · exact .inl ⟨rfl, rfl⟩
      · split
        · exact .inl ⟨rfl, rfl⟩
        · rename_i en heq
          split
          · exact .inl ⟨rfl, rfl⟩
          · exact .inr ⟨en, _, heq, rfl, rfl⟩

theorem Unlink_heap_shape (ncs : nodeCacheStandard) (ref : blockRef) (oldPath : path) :
    ((Unlink ncs ref oldPath).2.cores = ncs.cores ∧
     (Unlink ncs ref oldPath).2.nextCore = ncs.nextCore) ∨
    (∃ en f, mapFind ncs.nodes ref = some en ∧
      (Unlink ncs ref oldPath).2.cores = mapModify ncs.cores en.core f ∧
      (Unlink ncs ref oldPath).2.nextCore = ncs.nextCore) := by
  rw [Unlink]
  split
  · exact .inl ⟨rfl, rfl⟩
  · split
    · exact .inl ⟨rfl, rfl⟩
    · split
      · exact .inl ⟨rfl, rfl⟩
      · rename_i en heq
        exact .inr ⟨en, _, heq, rfl, rfl⟩

theorem frame_of_same (ncs s' : nodeCacheStandard) (c : Nat) (co : nodeCore)
    (hwf : heapWF ncs) (hc : getCore ncs c = some co)
    (h1 : s'.cores = ncs.cores) (h2 : s'.nextCore = ncs.nextCore) :
    getCore s' c = some co ∧ heapWF s' := by
  constructor
  · rw [getCore, h1]
    exact hc
  · intro q hq
    rw [h1] at hq
    rw [h2]
    exact hwf q hq

theorem frame_of_insert (ncs s' : nodeCacheStandard) (c : Nat) (co v : nodeCore)
    (hwf : heapWF ncs) (hc : getCore ncs c = some co)
    (h1 : s'.cores = mapInsert ncs.cores ncs.nextCore v)
    (h2 : s'.nextCore = ncs.nextCore + 1) :
    getCore s' c = some co ∧ heapWF s' := by
  have hlt : c < ncs.nextCore := getCore_lt ncs c co hwf hc
  constructor
  · rw [getCore, h1, mapFind_mapInsert_ne _ _ _ _ (by omega)]
    exact hc
  · intro q hq
    rw [h1] at hq
    rw [h2]
    rcases List.mem_cons.mp hq with h | h
    · rw [h]
      omega
    · have := hwf q (mem_mapErase _ _ _ h)
      omega

theorem frame_of_modify (ncs s' : nodeCacheStandard) (c k : Nat) (f : nodeCore → nodeCore)
    (co : nodeCore)
    (hwf : heapWF ncs) (hc : getCore ncs c = some co)
    (h1 : s'.cores = mapModify ncs.cores k f) (h2 : s'.nextCore = ncs.nextCore)
    (hne : c ≠ k) :
    getCore s' c = some co ∧ heapWF s' := by
  constructor
  · rw [getCore, h1, mapFind_mapModify_ne _ _ _ _ hne]
    exact hc
  · intro q hq
    rw [h1] at hq
    rw [h2]
    obtain ⟨p, hp, he⟩ := mem_mapModify _ _ _ _ hq
    rw [he]
    exact hwf p hp

theorem applyOp_frame (ncs : nodeCacheStandard) (op : cacheOp) (c : Nat) (co : nodeCore)
    (hwf : heapWF ncs) (hc : getCore ncs c = some co)
    (hnw : writesCore ncs op c = false) :
    getCore (applyOp ncs op) c = some co ∧ heapWF (applyOp ncs op) := by
  cases op with
  | getOrCreate ptr name parent =>
    rcases GetOrCreate_heap_shape ncs ptr name parent with ⟨h1, h2⟩ | ⟨pc, h1, h2⟩
    · exact frame_of_same ncs _ c co hwf hc h1 h2
    · exact frame_of_insert ncs _ c co _ hwf hc h1 h2
  | get ref =>
    obtain ⟨h1, h2⟩ := Get_heap_shape ncs ref
    exact frame_of_same ncs _ c co hwf hc h1 h2
  | updatePointer oldRef newPtr =>
    rcases UpdatePointer_heap_shape ncs oldRef newPtr with ⟨h1, h2⟩ | ⟨en, f, hfind, h1, h2⟩
    · exact frame_of_same ncs _ c co hwf hc h1 h2
    · simp only [writesCore, hfind] at hnw
      exact frame_of_modify ncs _ c en.core f co hwf hc h1 h2
        (fun h => by simp [h] at hnw)
  | move ref newParent newName =>
    rcases Move_heap_shape ncs ref newParent newName with ⟨h1, h2⟩ | ⟨en, f, hfind, h1, h2⟩
    · exact frame_of_same ncs _ c co hwf hc h1 h2
    · simp only [writesCore, hfind] at hnw
      exact frame_of_modify ncs _ c en.core f co hwf hc h1 h2
        (fun h => by simp [h] at hnw)
  | unlink ref oldPath =>
    rcases Unlink_heap_shape ncs ref oldPath with ⟨h1, h2⟩ | ⟨en, f, hfind, h1, h2⟩
    · exact frame_of_same ncs _ c co hwf hc h1 h2
    · simp only [writesCore, hfind] at hnw
      exact frame_of_modify ncs _ c en.core f co hwf hc h1 h2
        (fun h => by simp [h] at hnw)

theorem applyOps_frame :
    ∀ (ops : List cacheOp) (ncs : nodeCacheStandard) (c : Nat) (co : nodeCore),
      heapWF ncs → getCore ncs c = some co → avoidsCore ncs ops c →
      getCore (applyOps ncs ops) c = some co ∧ heapWF (applyOps ncs ops) := by
  intro ops
  induction ops with
  | nil => exact fun ncs c co hwf hc _ => ⟨hc, hwf⟩
  | cons op rest ih =>
    intro ncs c co hwf hc hav
    obtain ⟨h1, h2⟩ := hav
    obtain ⟨hc', hwf'⟩ := applyOp_frame ncs op c co hwf hc h1
    exact ih (applyOp ncs op) c co hwf' hc' h2

theorem acquire_step (ncs : nodeCacheStandard) (ptr : BlockPointer) (name : String)
    (cid : Nat) (n : Int) (k : Bool)
    (hv : ptr.IsValid = true) (hn : name ≠ "")
    (hfind : mapFind ncs.nodes ptr.ref = some ⟨cid, n⟩) :
    acquireKind ncs ptr name k =
      { ncs with nodes := mapInsert ncs.nodes ptr.ref ⟨cid, n + 1⟩ } := by
  cases k with
  | true =>
    rw [acquireKind, if_pos rfl,
      GetOrCreate_reuse ncs ptr name none ⟨cid, n⟩ hv hn hfind (by simp)]
  | false =>
    rw [acquireKind, if_neg (by simp),
      Get_hit ncs ptr.ref ⟨cid, n⟩ (BlockPointer.ref_ne_zero ptr hv)
        (BlockPointer.ref_valid ptr hv) hfind]

theorem acquireAll_spec (ptr : BlockPointer) (name : String) (cid : Nat)
    (hv : ptr.IsValid = true) (hn : name ≠ "") :
    ∀ (ks : List Bool) (ncs : nodeCacheStandard) (n : Int),
      mapFind ncs.nodes ptr.ref = some ⟨cid, n⟩ →
      mapFind (acquireAll ncs ptr name ks).nodes ptr.ref =
        some ⟨cid, n + (ks.length : Int)⟩ ∧
      (acquireAll ncs ptr name ks).cores = ncs.cores := by
  intro ks
  induction ks with
  | nil =>
    intro ncs n hfind
    refine ⟨?_, rfl⟩
    simpa using hfind
  | cons k ks ih =>
    intro ncs n hfind
    have hstep : acquireAll ncs ptr name (k :: ks) =
        acquireAll { ncs with nodes := mapInsert ncs.nodes ptr.ref ⟨cid, n + 1⟩ }
          ptr name ks := by
      rw [acquireAll, List.foldl_cons, acquire_step ncs ptr name cid n k hv hn hfind]
      rfl
    rw [hstep]
    obtain ⟨h1, h2⟩ := ih { ncs with nodes := mapInsert ncs.nodes ptr.ref ⟨cid, n + 1⟩ }
      (n + 1) (mapFind_mapInsert_self _ _ _)
    refine ⟨?_, h2⟩
    rw [h1]
    have harith : n + 1 + (ks.length : Int) = n + ((k :: ks).length : Int) := by
      push_cast [List.length_cons]
      ring
    rw [harith]

theorem releaseRep_spec (ptr : BlockPointer) (cid : Nat) (co0 : nodeCore)
    (hp : co0.pathNode.ptr = ptr) :
    ∀ (j N : Nat) (ncs : nodeCacheStandard), j ≤ N → 1 ≤ N →
      mapFind ncs.nodes ptr.ref = some ⟨cid, (N : Int)⟩ →
      getCore ncs cid = some co0 →
      (j < N → mapFind (releaseRep ncs cid j).nodes ptr.ref =
         some ⟨cid, ((N - j : Nat) : Int)⟩) ∧
      (j = N → mapFind (releaseRep ncs cid j).nodes ptr.ref = none) := by
  intro j
  induction j with
  | zero =>
    intro N ncs _ hN hfind hco
    constructor
    · intro _
      simpa using hfind
    · intro h0
      exact ((by omega : False)).elim
  | succ j ih =>
    intro N ncs hjN hN hfind hco
    have hrr : releaseRep ncs cid (j + 1) = releaseRep (forget ncs cid) cid j := rfl
    by_cases hN1 : N = 1
    · subst hN1
      have hj0 : j = 0 := by omega
      subst hj0
      have hev : forget ncs cid = { ncs with nodes := mapErase ncs.nodes ptr.ref } := by
        have h := forget_evict ncs cid co0 ⟨cid, ((1 : Nat) : Int)⟩ hco
          (by rw [hp]; exact hfind) rfl (by norm_num)
        rw [hp] at h
        exact h
      constructor
      · intro hlt
        exact ((by omega : False)).elim
      · intro _
        rw [hrr, hev]
        exact mapFind_mapErase_self _ _
    · have hN2 : 2 ≤ N := by omega
      have hdec : forget ncs cid =
          { ncs with nodes := mapInsert ncs.nodes ptr.ref ⟨cid, (N : Int) - 1⟩ } := by
        have h := forget_dec ncs cid co0 ⟨cid, (N : Int)⟩ hco
          (by rw [hp]; exact hfind) rfl (by show ¬ (N : Int) - 1 ≤ 0; omega)
        rw [hp] at h
        exact h
      have hcast : (N : Int) - 1 = ((N - 1 : Nat) : Int) := by omega
      have hfind' : mapFind (forget ncs cid).nodes ptr.ref =
          some ⟨cid, ((N - 1 : Nat) : Int)⟩ := by
        rw [hdec, hcast]
        exact mapFind_mapInsert_self _ _ _
      have hco' : getCore (forget ncs cid) cid = some co0 := by
        rw [hdec]
        exact hco
      have hih := ih (N - 1) (forget ncs cid) (by omega) (by omega) hfind' hco'
      constructor
      · intro hlt
        rw [hrr, show N - (j + 1) = N - 1 - j from by omega]
        exact hih.1 (by omega)
      · intro heq
        rw [hrr]
        exact hih.2 (by omega)

/-- C7: starting from a cache in which an identity is absent, after the
creating `GetOrCreate` and any further sequence of `GetOrCreate`/`Get`
acquisitions of that identity, the entry's reference count equals the
number of outstanding handles; after each of the first `N - 1` releases
it equals the (still positive) number of remaining handles; and after the
`N`-th (last) release the entry is absent from the index. -/
theorem claim7_refcount_conservation
    (ncs : nodeCacheStandard) (ptr : BlockPointer) (name : String)
    (hv : ptr.IsValid = true) (hn : name ≠ "")
    (habs : mapFind ncs.nodes ptr.ref = none) :
    ∀ (ks : List Bool) (j : Nat), j ≤ ks.length + 1 →
      mapFind (acquireAll (GetOrCreate ncs ptr name none).2 ptr name ks).nodes ptr.ref =
        some ⟨ncs.nextCore, ((ks.length + 1 : Nat) : Int)⟩ ∧
      (j < ks.length + 1 →
        mapFind (releaseRep (acquireAll (GetOrCreate ncs ptr name none).2 ptr name ks)
            ncs.nextCore j).nodes ptr.ref =
          some ⟨ncs.nextCore, ((ks.length + 1 - j : Nat) : Int)⟩) ∧
      (j = ks.length + 1 →
        mapFind (releaseRep (acquireAll (GetOrCreate ncs ptr name none).2 ptr name ks)
            ncs.nextCore j).nodes ptr.ref = none) := by
  intro ks j hj
  have hs1 : (GetOrCreate ncs ptr name none).2 =
      { ncs with
        cores := mapInsert ncs.cores ncs.nextCore ⟨⟨ptr, name⟩, none, emptyPath⟩,
        nextCore := ncs.nextCore + 1,
        nodes := mapInsert (mapInsert ncs.nodes ptr.ref ⟨ncs.nextCore, 0⟩) ptr.ref
          ⟨ncs.nextCore, 1⟩ } := by
    rw [GetOrCreate_create_root ncs ptr name hv hn habs, finishCreate_eq]
  have hfind1 : mapFind (GetOrCreate ncs ptr name none).2.nodes ptr.ref =
      some ⟨ncs.nextCore, ((1 : Nat) : Int)⟩ := by
    rw [hs1]
    exact mapFind_mapInsert_self _ _ _
  have hco1 : getCore (GetOrCreate ncs ptr name none).2 ncs.nextCore =
      some ⟨⟨ptr, name⟩, none, emptyPath⟩ := by
    rw [hs1, getCore]
    exact mapFind_mapInsert_self _ _ _
  obtain ⟨hfindA, hcoresA⟩ :=
    acquireAll_spec ptr name ncs.nextCore hv hn ks (GetOrCreate ncs ptr name none).2
      ((1 : Nat) : Int) hfind1
  have hfindA' : mapFind (acquireAll (GetOrCreate ncs ptr name none).2 ptr name ks).nodes
      ptr.ref = some ⟨ncs.nextCore, ((ks.length + 1 : Nat) : Int)⟩ := by
    rw [hfindA, show ((1 : Nat) : Int) + (ks.length : Int) = ((ks.length + 1 : Nat) : Int)
      from by push_cast; ring]
  have hcoA : getCore (acquireAll (GetOrCreate ncs ptr name none).2 ptr name ks)
      ncs.nextCore = some ⟨⟨ptr, name⟩, none, emptyPath⟩ := by
    rw [getCore, hcoresA]
    exact hco1
  obtain ⟨hside1, hside2⟩ :=
    releaseRep_spec ptr ncs.nextCore ⟨⟨ptr, name⟩, none, emptyPath⟩ rfl j (ks.length + 1)
      (acquireAll (GetOrCreate ncs ptr name none).2 ptr name ks) hj (by omega) hfindA' hcoA
  exact ⟨hfindA', hside1, hside2⟩

theorem claim7_witness :
    mapFind (acquireAll (GetOrCreate (newNodeCacheStandard ⟨1, 1⟩) ⟨1, 0, 0⟩ "a" none).2
        ⟨1, 0, 0⟩ "a" [true, false]).nodes ⟨1, 0⟩ =
      some ⟨0, ((3 : Nat) : Int)⟩ ∧
    mapFind (releaseRep (acquireAll
        (GetOrCreate (newNodeCacheStandard ⟨1, 1⟩) ⟨1, 0, 0⟩ "a" none).2
        ⟨1, 0, 0⟩ "a" [true, false]) 0 1).nodes ⟨1, 0⟩ =
      some ⟨0, ((2 : Nat) : Int)⟩ ∧
    mapFind (releaseRep (acquireAll
        (GetOrCreate (newNodeCacheStandard ⟨1, 1⟩) ⟨1, 0, 0⟩ "a" none).2
        ⟨1, 0, 0⟩ "a" [true, false]) 0 3).nodes ⟨1, 0⟩ = none :=
  ⟨(claim7_refcount_conservation (newNodeCacheStandard ⟨1, 1⟩) ⟨1, 0, 0⟩ "a"
      (by decide) (by decide) (by decide) [true, false] 0 (by decide)).1,
   (claim7_refcount_conservation (newNodeCacheStandard ⟨1, 1⟩) ⟨1, 0, 0⟩ "a"
      (by decide) (by decide) (by decide) [true, false] 1 (by decide)).2.1 (by decide),
   (claim7_refcount_conservation (newNodeCacheStandard ⟨1, 1⟩) ⟨1, 0, 0⟩ "a"
      (by decide) (by decide) (by decide) [true, false] 3 (by decide)).2.2 (by decide)⟩

/-- C3 (amended): after `Unlink(A, snapshot)` with a non-empty snapshot
on a node `A` that is still held open, every later `PathFromNode` on a
handle to `A` returns exactly the stored snapshot, unaffected by any
intervening `GetOrCreate`/`Move`/`Unlink`/`UpdatePointer` operations on
other nodes (operations that do not write `A`'s node core). -/
theorem claim3_unlink_freezes_path
    (ncs : nodeCacheStandard) (ref : blockRef) (snap : path)
    (en : nodeCacheEntry) (co : nodeCore) (ops : List cacheOp)
    (hwf : heapWF ncs) (hv : ref.IsValid = true)
    (hfind : mapFind ncs.nodes ref = some en)
    (hco : getCore ncs en.core = some co)
    (hsnap : snap.path ≠ [])
    (hops : avoidsCore (Unlink ncs ref snap).2 ops en.core) :
    PathFromNode (applyOps (Unlink ncs ref snap).2 ops) (.standard en.core) = snap := by
  have hz := blockRef.ne_zero_of_valid ref hv
  have hu : (Unlink ncs ref snap).2 = updateCore ncs en.core (unlinkCore snap) := by
    rw [Unlink_found ncs ref snap en hz hv hfind]
  rw [hu] at hops ⊢
  have hc1 := getCore_updateCore_self ncs en.core (unlinkCore snap) co hco
  have hwf1 := heapWF_updateCore ncs en.core (unlinkCore snap) hwf
  obtain ⟨hcF, _⟩ := applyOps_frame ops _ en.core _ hwf1 hc1 hops
  have hstep : pathWalk (applyOps (updateCore ncs en.core (unlinkCore snap)) ops)
      ((applyOps (updateCore ncs en.core (unlinkCore snap)) ops).cores.length + 1)
      (some en.core) [] = .early snap := by
    simp only [pathWalk, hcF]
    rw [if_pos ⟨rfl, List.length_pos.mpr hsnap⟩]
    simp [unlinkCore]
  simp only [PathFromNode, hstep]

theorem claim3_counterexample :
    PathFromNode cacheRuEmpty (.standard 0) = ⟨⟨1, 1⟩, [⟨⟨1, 0, 0⟩, ""⟩]⟩ ∧
    PathFromNode cacheRuEmpty (.standard 0) ≠ ⟨⟨9, 9⟩, []⟩ ∧
    (getCore cacheRuEmpty 0).map (fun co => co.cachedPath) = some ⟨⟨9, 9⟩, []⟩ := by
  decide

theorem claim3_witness :
    PathFromNode
      (applyOps (Unlink cacheRAB ⟨2, 0⟩ snapA).2
        [.getOrCreate ⟨5, 0, 0⟩ "z" none, .move ⟨3, 0⟩ (.standard 0) "c",
         .updatePointer ⟨3, 0⟩ ⟨6, 0, 0⟩])
      (.standard 1) = snapA :=
  claim3_unlink_freezes_path cacheRAB ⟨2, 0⟩ snapA ⟨1, 1⟩
    ⟨⟨⟨2, 0, 0⟩, "a"⟩, some 0, emptyPath⟩
    [.getOrCreate ⟨5, 0, 0⟩ "z" none, .move ⟨3, 0⟩ (.standard 0) "c",
     .updatePointer ⟨3, 0⟩ ⟨6, 0, 0⟩]
    (by decide) (by decide) (by decide) (by decide) (by decide)
    ⟨by decide, by decide, by decide, trivial⟩

/-- C9: when `GetOrCreate` finds an existing entry whose core is attached
(parent link non-none), it increments the reference count and returns a
handle to the existing core without validating the supplied parent handle
at all — for every parent argument, including a foreign or dangling
handle, the call succeeds and never produces a "parent not found"
error. -/
theorem claim9_reuse_skips_parent_validation
    (ncs : nodeCacheStandard) (ptr : BlockPointer) (name : String) (en : nodeCacheEntry)
    (hv : ptr.IsValid = true) (hn : name ≠ "")
    (hfind : mapFind ncs.nodes ptr.ref = some en)
    (hatt : coreParent ncs en.core ≠ none) :
    ∀ parent : Option Node,
      GetOrCreate ncs ptr name parent =
        (.ok (.standard en.core),
         { ncs with nodes := mapInsert ncs.nodes ptr.ref ⟨en.core, en.refCount + 1⟩ }) := by
  intro parent
  apply GetOrCreate_reuse _ _ _ _ _ hv hn hfind
  cases hpar : coreParent ncs en.core with
  | none => exact absurd hpar hatt
  | some c => simp [hpar]

theorem claim9_witness :
    GetOrCreate cacheRAB ⟨2, 0, 0⟩ "a" (some .foreign) =
      (.ok (.standard 1),
       { cacheRAB with nodes := mapInsert cacheRAB.nodes ⟨2, 0⟩ ⟨1, 2⟩ }) :=
  claim9_reuse_skips_parent_validation cacheRAB ⟨2, 0, 0⟩ "a" ⟨1, 1⟩
    (by decide) (by decide) (by decide) (by decide) (some .foreign)

/-- C10 (amended): `Move` with a valid, non-sentinel identity absent from
the index returns success without mutating state provided the supplied
new name is non-empty (with an empty new name it instead returns an
"empty name" error, still without mutation, because the name check
precedes the lookup); `Unlink` with a valid, non-sentinel absent identity
is a silent no-op; in neither operation is absence reported. -/
theorem claim10_absent_is_silent
    (ncs : nodeCacheStandard) (ref : blockRef) (p : Node) (newName : String) (oldPath : path)
    (hv : ref.IsValid = true)
    (habs : mapFind ncs.nodes ref = none) :
    (newName ≠ "" → Move ncs ref p newName = (.ok (), ncs)) ∧
    Unlink ncs ref oldPath = (.ok (), ncs) ∧
    Move ncs ref p "" = (.error (.emptyName ref), ncs) := by
  have hz := blockRef.ne_zero_of_valid ref hv
  exact ⟨fun hn => Move_missing ncs ref p newName hz hv hn habs,
         Unlink_missing ncs ref oldPath hz hv habs,
         Move_emptyName ncs ref p hz hv⟩

theorem claim10_counterexample :
    (⟨4, 0⟩ : blockRef).IsValid = true ∧
    mapFind cacheR.nodes ⟨4, 0⟩ = none ∧
    (Move cacheR ⟨4, 0⟩ .foreign "").1 = .error (.emptyName ⟨4, 0⟩) ∧
    (Move cacheR ⟨4, 0⟩ .foreign "").1 ≠ .ok () := by
  decide

theorem claim10_witness :
    Move cacheR ⟨4, 0⟩ .foreign "z" = (.ok (), cacheR) ∧
    Unlink cacheR ⟨4, 0⟩ snapA = (.ok (), cacheR) ∧
    Move cacheR ⟨4, 0⟩ .foreign "" = (.error (.emptyName ⟨4, 0⟩), cacheR) :=
  let h := claim10_absent_is_silent cacheR ⟨4, 0⟩ .foreign "z" snapA (by decide) (by decide)
  ⟨h.1 (by decide), h.2.1, h.2.2⟩

/-- C5: `GetOrCreate` with a non-none parent on an identity whose
existing entry's core is detached evicts the stale entry and creates a
fresh core — linked to the validated parent, inserted under the identity,
returned with reference count 1 — and the stale core is never handed
back (the returned core id differs from the stale one). -/
theorem claim5_resurrection
    (ncs : nodeCacheStandard) (ptr : BlockPointer) (name : String) (p : Node)
    (en : nodeCacheEntry) (co : nodeCore) (pc : Nat)
    (hv : ptr.IsValid = true) (hn : name ≠ "")
    (hwf : heapWF ncs)
    (hfind : mapFind ncs.nodes ptr.ref = some en)
    (hco : getCore ncs en.core = some co) (hdet : co.parent = none)
    (hres : newChildForParentLocked { ncs with nodes := mapErase ncs.nodes ptr.ref } p
              = .ok pc) :
    (GetOrCreate ncs ptr name (some p)).1 = .ok (.standard ncs.nextCore) ∧
    ncs.nextCore ≠ en.core ∧
    mapFind (GetOrCreate ncs ptr name (some p)).2.nodes ptr.ref =
      some ⟨ncs.nextCore, 1⟩ ∧
    getCore (GetOrCreate ncs ptr name (some p)).2 ncs.nextCore =
      some ⟨⟨ptr, name⟩, some pc, emptyPath⟩ := by
  have hdet' : coreParent ncs en.core = none := by
    rw [coreParent, hco]
    exact hdet
  have hne : ncs.nextCore ≠ en.core := by
    have := getCore_lt ncs en.core co hwf hco
    omega
  rw [GetOrCreate_resurrect ncs ptr name p en hv hn hfind hdet']
  simp only [createNewEntry, hres]
  rw [finishCreate_eq]
  refine ⟨rfl, hne, ?_, ?_⟩
  · exact mapFind_mapInsert_self _ _ _
  · exact mapFind_mapInsert_self _ _ _

theorem claim5_witness :
    (GetOrCreate cacheRABu ⟨2, 0, 0⟩ "a" (some (.standard 0))).1 = .ok (.standard 3) ∧
    (3 : Nat) ≠ 1 ∧
    mapFind (GetOrCreate cacheRABu ⟨2, 0, 0⟩ "a" (some (.standard 0))).2.nodes ⟨2, 0⟩ =
      some ⟨3, 1⟩ ∧
    getCore (GetOrCreate cacheRABu ⟨2, 0, 0⟩ "a" (some (.standard 0))).2 3 =
      some ⟨⟨⟨2, 0, 0⟩, "a"⟩, some 0, emptyPath⟩ :=
  claim5_resurrection cacheRABu ⟨2, 0, 0⟩ "a" (.standard 0) ⟨1, 1⟩
    ⟨⟨⟨2, 0, 0⟩, ""⟩, none, snapA⟩ 0
    (by decide) (by decide) (by decide) (by decide) (by decide) (by decide) (by decide)

/-- C6: on an entry under identity `oldRef` whose node is not unlinked,
`UpdatePointer oldRef newPtr` (with `newPtr` deriving a different
identity) succeeds; a handle obtained before the call still resolves to
the same core, which now reports pointer `newPtr`; `Get oldRef` then
returns none and `Get` of the new identity returns a handle to that same
core. -/
theorem claim6_update_pointer_rekeys
    (ncs : nodeCacheStandard) (oldRef : blockRef) (newPtr : BlockPointer)
    (en : nodeCacheEntry) (co : nodeCore)
    (hv : oldRef.IsValid = true) (hvp : newPtr.IsValid = true)
    (hne : newPtr.ref ≠ oldRef)
    (hfind : mapFind ncs.nodes oldRef = some en)
    (hco : getCore ncs en.core = some co)
    (hnl : co.cachedPath.path = []) :
    (UpdatePointer ncs oldRef newPtr).1 = .ok () ∧
    getCore (UpdatePointer ncs oldRef newPtr).2 en.core =
      some { co with pathNode := { co.pathNode with ptr := newPtr } } ∧
    (Get (UpdatePointer ncs oldRef newPtr).2 oldRef).1 = .ok none ∧
    (Get (UpdatePointer ncs oldRef newPtr).2 newPtr.ref).1 =
      .ok (some (.standard en.core)) := by
  have hz := blockRef.ne_zero_of_valid oldRef hv
  have hcp : ¬ 0 < (coreCachedPath ncs en.core).path.length := by
    rw [coreCachedPath, hco, hnl]
    simp
  rw [UpdatePointer_rekey ncs oldRef newPtr en hz hv hvp hfind hcp]
  refine ⟨rfl, ?_, ?_, ?_⟩
  · exact getCore_updateCore_self ncs en.core _ co hco
  · rw [Get_miss]
    · exact hz
    · exact hv
    · rw [mapFind_mapInsert_ne _ _ _ _ (fun h => hne h.symm), mapFind_mapErase_self]
  · rw [Get_hit _ _ en (BlockPointer.ref_ne_zero newPtr hvp) (BlockPointer.ref_valid newPtr hvp)
      (mapFind_mapInsert_self _ _ _)]

/-- C2 (amended): after `Unlink` with a non-empty snapshot path, a
subsequent `UpdatePointer` naming that node is a silent no-op — the whole
cache state, in particular the node's content pointer and its index entry
under the old identity key, is unchanged. -/
theorem claim2_unlink_pins_pointer
    (ncs : nodeCacheStandard) (ref : blockRef) (snap : path) (newPtr : BlockPointer)
    (en : nodeCacheEntry) (co : nodeCore)
    (hv : ref.IsValid = true) (hvp : newPtr.IsValid = true)
    (hfind : mapFind ncs.nodes ref = some en)
    (hco : getCore ncs en.core = some co)
    (hsnap : snap.path ≠ []) :
    UpdatePointer (Unlink ncs ref snap).2 ref newPtr = (.ok (), (Unlink ncs ref snap).2) := by
  have hz := blockRef.ne_zero_of_valid ref hv
  rw [Unlink_found ncs ref snap en hz hv hfind]
  refine UpdatePointer_unlinked _ ref newPtr en hz hv hvp hfind ?_
  rw [coreCachedPath, getCore_updateCore_self ncs en.core _ co hco]
  exact List.length_pos.mpr hsnap

theorem claim2_counterexample :
    (getCore cacheRuEmpty 0).map (fun co => co.pathNode.ptr) = some ⟨1, 0, 0⟩ ∧
    (getCore (UpdatePointer cacheRuEmpty ⟨1, 0⟩ ⟨7, 0, 0⟩).2 0).map
        (fun co => co.pathNode.ptr) = some ⟨7, 0, 0⟩ ∧
    mapFind (UpdatePointer cacheRuEmpty ⟨1, 0⟩ ⟨7, 0, 0⟩).2.nodes ⟨1, 0⟩ = none := by
  decide

theorem claim2_witness :
    UpdatePointer (Unlink cacheRAB ⟨2, 0⟩ snapA).2 ⟨2, 0⟩ ⟨7, 0, 0⟩ =
      (.ok (), (Unlink cacheRAB ⟨2, 0⟩ snapA).2) :=
  claim2_unlink_pins_pointer cacheRAB ⟨2, 0⟩ snapA ⟨7, 0, 0⟩ ⟨1, 1⟩
    ⟨⟨⟨2, 0, 0⟩, "a"⟩, some 0, emptyPath⟩
    (by decide) (by decide) (by decide) (by decide) (by decide)

theorem pathWalk_done_of_acc_ne (ncs : nodeCacheStandard) :
    ∀ (fuel : Nat) (cur : Option Nat) (acc : List pathNode),
      acc ≠ [] → ∃ r, pathWalk ncs fuel cur acc = .done r := by
  intro fuel
  induction fuel with
  | zero => exact fun cur acc h => ⟨acc, rfl⟩
  | succ n ih =>
    intro cur acc h
    cases cur with
    | none => exact ⟨acc, rfl⟩
    | some c =>
      cases hgc : getCore ncs c with
      | none =>
        refine ⟨acc, ?_⟩
        simp only [pathWalk, hgc]
      | some core =>
        by_cases hcond : core.parent = none ∧ 0 < core.cachedPath.path.length
        · refine ⟨acc ++ core.cachedPath.path.reverse, ?_⟩
          simp only [pathWalk, hgc]
          rw [if_pos hcond, if_neg h]
        · obtain ⟨r, hr⟩ := ih core.parent (acc ++ [core.pathNode]) (by simp)
          refine ⟨r, ?_⟩
          simp only [pathWalk, hgc]
          rw [if_neg hcond]
          exact hr

/-- C8 (amended): `PathFromNode` on a handle not of this cache's handle
type returns the empty path carrying the zero folder-branch (not the
cache's tag); a walk that does not hit the first-node cached-path
shortcut produces a path carrying this cache's folder-branch tag; when
the handle's own core is detached with a non-empty cached path, the
stored snapshot is returned verbatim, carrying the snapshot's own tag. -/
theorem claim8_folder_branch (ncs : nodeCacheStandard) :
    PathFromNode ncs .foreign = ⟨⟨0, 0⟩, []⟩ ∧
    (∀ c co, getCore ncs c = some co →
      ¬ (co.parent = none ∧ 0 < co.cachedPath.path.length) →
      (PathFromNode ncs (.standard c)).folderBranch = ncs.folderBranch) ∧
    (∀ c co, getCore ncs c = some co → co.parent = none →
      0 < co.cachedPath.path.length →
      PathFromNode ncs (.standard c) = co.cachedPath) := by
  refine ⟨rfl, ?_, ?_⟩
  · intro c co hgc hcond
    have hstep : pathWalk ncs (ncs.cores.length + 1) (some c) [] =
        pathWalk ncs ncs.cores.length co.parent [co.pathNode] := by
      simp only [pathWalk, hgc]
      rw [if_neg hcond]
      simp
    obtain ⟨r, hr⟩ :=
      pathWalk_done_of_acc_ne ncs ncs.cores.length co.parent [co.pathNode] (by simp)
    simp only [PathFromNode, hstep, hr]
  · intro c co hgc hpar hlen
    have hstep : pathWalk ncs (ncs.cores.length + 1) (some c) [] = .early co.cachedPath := by
      simp only [pathWalk, hgc]
      rw [if_pos ⟨hpar, hlen⟩]
      simp
    simp only [PathFromNode, hstep]

theorem claim8_counterexample :
    (PathFromNode cacheR .foreign).folderBranch ≠ cacheR.folderBranch ∧
    PathFromNode cacheR .foreign = ⟨⟨0, 0⟩, []⟩ := by
  decide

theorem claim8_witness :
    PathFromNode cacheRABu .foreign = ⟨⟨0, 0⟩, []⟩ ∧
    (PathFromNode cacheRABu (.standard 0)).folderBranch = cacheRABu.folderBranch ∧
    PathFromNode cacheRABu (.standard 1) = snapA :=
  let h := claim8_folder_branch cacheRABu
  ⟨h.1,
   h.2.1 0 ⟨⟨⟨1, 0, 0⟩, "r"⟩, none, emptyPath⟩ (by decide) (by decide),
   h.2.2 1 ⟨⟨⟨2, 0, 0⟩, ""⟩, none, snapA⟩ (by decide) (by decide) (by decide)⟩

/-- C4 (amended): for an attached chain with root `R`, child `A` named
"a" and grandchild `B` named "b", `PathFromNode` on a handle to `B`
returns the root-to-leaf sequence [(R's pointer, R's name), (A's pointer,
"a"), (B's pointer, "b")] tagged with the cache's folder-branch — the
first component carries the name `R` was created with, which is never the
empty string for a cache-created root. -/
theorem claim4_path_attached
    (ncs : nodeCacheStandard) (cR cA cB : Nat) (pR pA pB : BlockPointer)
    (nR : String) (cpR cpA cpB : path)
    (hR : getCore ncs cR = some ⟨⟨pR, nR⟩, none, cpR⟩) (hcpR : cpR.path = [])
    (hA : getCore ncs cA = some ⟨⟨pA, "a"⟩, some cR, cpA⟩)
    (hB : getCore ncs cB = some ⟨⟨pB, "b"⟩, some cA, cpB⟩)
    (hlen : 3 ≤ ncs.cores.length) :
    PathFromNode ncs (.standard cB) =
      ⟨ncs.folderBranch, [⟨pR, nR⟩, ⟨pA, "a"⟩, ⟨pB, "b"⟩]⟩ := by
  obtain ⟨k, hk⟩ := Nat.exists_eq_add_of_le hlen
  have hf : 3 + k + 1 = (((k + 1) + 1) + 1) + 1 := by omega
  simp only [PathFromNode, hk, hf]
  have s1 : pathWalk ncs ((((k + 1) + 1) + 1) + 1) (some cB) [] =
      pathWalk ncs (((k + 1) + 1) + 1) (some cA) [⟨pB, "b"⟩] := by
    simp only [pathWalk, hB]
    rw [if_neg (by simp)]
    simp
  have s2 : pathWalk ncs (((k + 1) + 1) + 1) (some cA) [⟨pB, "b"⟩] =
      pathWalk ncs ((k + 1) + 1) (some cR) [⟨pB, "b"⟩, ⟨pA, "a"⟩] := by
    simp only [pathWalk, hA]
    rw [if_neg (by simp)]
    simp
  have s3 : pathWalk ncs ((k + 1) + 1) (some cR) [⟨pB, "b"⟩, ⟨pA, "a"⟩] =
      pathWalk ncs (k + 1) none [⟨pB, "b"⟩, ⟨pA, "a"⟩, ⟨pR, nR⟩] := by
    simp only [pathWalk, hR]
    rw [if_neg (by simp [hcpR])]
    simp
  rw [s1, s2, s3]
  simp [pathWalk]

theorem claim4_counterexample :
    PathFromNode cacheRAB (.standard 2) =
      ⟨⟨1, 1⟩, [⟨⟨1, 0, 0⟩, "r"⟩, ⟨⟨2, 0, 0⟩, "a"⟩, ⟨⟨3, 0, 0⟩, "b"⟩]⟩ ∧
    PathFromNode cacheRAB (.standard 2) ≠
      ⟨⟨1, 1⟩, [⟨⟨1, 0, 0⟩, ""⟩, ⟨⟨2, 0, 0⟩, "a"⟩, ⟨⟨3, 0, 0⟩, "b"⟩]⟩ := by
  decide

theorem claim4_witness :
    PathFromNode cacheRAB (.standard 2) =
      ⟨cacheRAB.folderBranch, [⟨⟨1, 0, 0⟩, "r"⟩, ⟨⟨2, 0, 0⟩, "a"⟩, ⟨⟨3, 0, 0⟩, "b"⟩]⟩ :=
  claim4_path_attached cacheRAB 0 1 2 ⟨1, 0, 0⟩ ⟨2, 0, 0⟩ ⟨3, 0, 0⟩ "r"
    emptyPath emptyPath emptyPath
    (by decide) (by decide) (by decide) (by decide) (by decide)

/-- C1 (amended): `GetOrCreate` or `Move` with a parent handle that does
not resolve to a live, core-matching entry in this cache's index fails
with "parent not found" and leaves the cache unchanged — except that when
`GetOrCreate` finds an existing entry under the requested identity whose
core is detached, the stale entry is evicted *before* the parent handle
is validated, and that eviction persists even though the call then fails
with "parent not found". -/
theorem claim1_parent_mismatch
    (ncs : nodeCacheStandard) (p : Node) (e : cacheError)
    (hres : newChildForParentLocked ncs p = .error e) :
    (∀ ptr name, BlockPointer.IsValid ptr = true → name ≠ "" →
       mapFind ncs.nodes ptr.ref = none →
       GetOrCreate ncs ptr name (some p) = (.error e, ncs)) ∧
    (∀ r nm en, blockRef.IsValid r = true → nm ≠ "" →
       mapFind ncs.nodes r = some en →
       Move ncs r p nm = (.error e, ncs)) ∧
    (∀ ptr name en e', BlockPointer.IsValid ptr = true → name ≠ "" →
       mapFind ncs.nodes ptr.ref = some en → coreParent ncs en.core = none →
       newChildForParentLocked { ncs with nodes := mapErase ncs.nodes ptr.ref } p
         = .error e' →
       GetOrCreate ncs ptr name (some p) =
         (.error e', { ncs with nodes := mapErase ncs.nodes ptr.ref })) := by
  refine ⟨?_, ?_, ?_⟩
  · intro ptr name hv hn hfind
    exact GetOrCreate_create_err ncs ptr name p e hv hn hfind hres
  · intro r nm en hv hn hfind
    exact Move_parent_err ncs r p nm en e (blockRef.ne_zero_of_valid r hv) hv hn hfind hres
  · intro ptr name en e' hv hn hfind hdet hres'
    rw [GetOrCreate_resurrect ncs ptr name p en hv hn hfind hdet]
    simp only [createNewEntry, hres']

theorem claim1_counterexample :
    (GetOrCreate cacheR ⟨1, 0, 0⟩ "x" (some .foreign)).1 =
      .error (.parentNotFound ⟨0, 0⟩) ∧
    (GetOrCreate cacheR ⟨1, 0, 0⟩ "x" (some .foreign)).2 ≠ cacheR ∧
    mapFind cacheR.nodes ⟨1, 0⟩ = some ⟨0, 1⟩ ∧
    mapFind (GetOrCreate cacheR ⟨1, 0, 0⟩ "x" (some .foreign)).2.nodes ⟨1, 0⟩ = none := by
  decide

theorem claim1_witness :
    GetOrCreate cacheRABu ⟨4, 0, 0⟩ "d" (some .foreign) =
      (.error (.parentNotFound ⟨0, 0⟩), cacheRABu) ∧
    Move cacheRABu ⟨3, 0⟩ .foreign "z" = (.error (.parentNotFound ⟨0, 0⟩), cacheRABu) ∧
    GetOrCreate cacheRABu ⟨2, 0, 0⟩ "a" (some .foreign) =
      (.error (.parentNotFound ⟨0, 0⟩),
       { cacheRABu with nodes := mapErase cacheRABu.nodes ⟨2, 0⟩ }) :=
  let h := claim1_parent_mismatch cacheRABu .foreign (.parentNotFound ⟨0, 0⟩) (by decide)
  ⟨h.1 ⟨4, 0, 0⟩ "d" (by decide) (by decide) (by decide),
   h.2.1 ⟨3, 0⟩ "z" ⟨2, 1⟩ (by decide) (by decide) (by decide),
   h.2.2 ⟨2, 0, 0⟩ "a" ⟨1, 1⟩ (.parentNotFound ⟨0, 0⟩)
     (by decide) (by decide) (by decide) (by decide) (by decide)⟩

theorem claim6_witness :
    (UpdatePointer cacheRAB ⟨3, 0⟩ ⟨7, 0, 0⟩).1 = .ok () ∧
    getCore (UpdatePointer cacheRAB ⟨3, 0⟩ ⟨7, 0, 0⟩).2 2 =
      some ⟨⟨⟨7, 0, 0⟩, "b"⟩, some 1, emptyPath⟩ ∧
    (Get (UpdatePointer cacheRAB ⟨3, 0⟩ ⟨7, 0, 0⟩).2 ⟨3, 0⟩).1 = .ok none ∧
    (Get (UpdatePointer cacheRAB ⟨3, 0⟩ ⟨7, 0, 0⟩).2 ⟨7, 0⟩).1 =
      .ok (some (.standard 2)) :=
  claim6_update_pointer_rekeys cacheRAB ⟨3, 0⟩ ⟨7, 0, 0⟩ ⟨2, 1⟩
    ⟨⟨⟨3, 0, 0⟩, "b"⟩, some 1, emptyPath⟩
    (by decide) (by decide) (by decide) (by decide) (by decide) (by decide)

end NodeCache
